import Mathlib

/-
Verification of the bgone background-removal tool.

The repository ships the CLI driver (cli.js) and the test/benchmark suite;
the core library (color primitives, unmix kernel, background detector,
pixel driver) is a native module whose source is not in the repository
checkout, so those components are modelled from the specification text.
Machine integers are modelled as Nat, normalized channel values and kernel
arithmetic as Rat (the implementation uses 32-bit floats; the spec states
its contracts in exact arithmetic).
-/

/-- A color channel selector. -/
inductive Channel : Type
| r
| g
| b
deriving DecidableEq

/-- An 8-bit RGB color: each field is intended to lie in [0,255]. -/
structure Rgb where
  r : Nat
  g : Nat
  b : Nat
deriving DecidableEq

/-- An 8-bit straight-alpha RGBA color. -/
structure Rgba where
  r : Nat
  g : Nat
  b : Nat
  a : Nat
deriving DecidableEq

/-- A normalized RGB color with rational channels in [0,1]. -/
structure NRgb where
  r : Rat
  g : Rat
  b : Rat
deriving DecidableEq

/-- Channel accessor for `Rgb`. -/
def Rgb.ch (c : Rgb) : Channel → Nat
  | Channel.r => c.r
  | Channel.g => c.g
  | Channel.b => c.b

/-- Channel accessor for `NRgb`. -/
def NRgb.ch (c : NRgb) : Channel → Rat
  | Channel.r => c.r
  | Channel.g => c.g
  | Channel.b => c.b

/-- Foreground-channel accessor for `Rgba` (ignores alpha). -/
def Rgba.ch (c : Rgba) : Channel → Nat
  | Channel.r => c.r
  | Channel.g => c.g
  | Channel.b => c.b

/-- Validity of an 8-bit color: every channel is at most 255. -/
def Rgb.valid (c : Rgb) : Prop := c.r ≤ 255 ∧ c.g ≤ 255 ∧ c.b ≤ 255

/-- Validity of an 8-bit RGBA color: every field is at most 255. -/
def Rgba.valid (c : Rgba) : Prop :=
  c.r ≤ 255 ∧ c.g ≤ 255 ∧ c.b ≤ 255 ∧ c.a ≤ 255

instance (c : Rgb) : Decidable c.valid := by unfold Rgb.valid; infer_instance

instance (c : Rgba) : Decidable c.valid := by unfold Rgba.valid; infer_instance

/-- Clamp an integer to [0,255] and return it as a Nat. -/
def clamp255 (z : Int) : Nat := (min 255 (max 0 z)).toNat

/-- Round a rational to the nearest integer, then clamp to [0,255].
This is the "clamp, then round to 8-bit" step of the spec; clamping after
rounding agrees with clamping before rounding on integer bounds. -/
def roundClamp (q : Rat) : Nat := clamp255 (round q)

/-- Clamp a rational to [0,1]. -/
def clamp01 (q : Rat) : Rat := min 1 (max 0 q)

/-- Modelled from the spec: `colorToNormalized` converts an 8-bit RGB color
to normalized [0,1] channels by dividing by 255 (library source not in the
repository checkout). -/
def colorToNormalized (c : Rgb) : NRgb :=
  ⟨(c.r : Rat) / 255, (c.g : Rat) / 255, (c.b : Rat) / 255⟩

/-- Modelled from the spec: `normalizedToColor` maps a normalized color back
to 8-bit under `round (x * 255)` with an output clamp (library source not in
the repository checkout). -/
def normalizedToColor (c : NRgb) : Rgb :=
  ⟨roundClamp (c.r * 255), roundClamp (c.g * 255), roundClamp (c.b * 255)⟩

/-- Modelled from the spec: `compositeOverBackground` blends an RGBA pixel
over an RGB background, per channel `alpha * fg + (1 - alpha) * bg` with
`alpha = a / 255`, rounded to nearest and clamped to [0,255] (library source
not in the repository checkout). -/
def compositeOverBackground (p : Rgba) (bg : Rgb) : Rgb :=
  let alpha : Rat := (p.a : Rat) / 255
  ⟨roundClamp (alpha * (p.r : Rat) + (1 - alpha) * (bg.r : Rat)),
   roundClamp (alpha * (p.g : Rat) + (1 - alpha) * (bg.g : Rat)),
   roundClamp (alpha * (p.b : Rat) + (1 - alpha) * (bg.b : Rat))⟩

/-- The error kinds of the library, as listed by the spec. -/
inductive BgError : Type
| invalidColor
| decodeFailed
| emptyImage
| insufficientColors
| encodeFailed
deriving DecidableEq

/-- Hex digit value of a character, case-insensitive; `none` on a non-hex
character. -/
def hexDigitVal (ch : Char) : Option Nat :=
  if '0' ≤ ch ∧ ch ≤ '9' then some (ch.toNat - Char.toNat '0')
  else if 'a' ≤ ch ∧ ch ≤ 'f' then some (ch.toNat - Char.toNat 'a' + 10)
  else if 'A' ≤ ch ∧ ch ≤ 'F' then some (ch.toNat - Char.toNat 'A' + 10)
  else none

/-- Convert a list of characters to hex digit values; `none` if any
character is not a hex digit. -/
def hexList : List Char → Option (List Nat)
  | [] => some []
  | ch :: rest =>
    match hexDigitVal ch, hexList rest with
    | some d, some ds => some (d :: ds)
    | _, _ => none

/-- Drop one leading hash character, if present. -/
def stripHash : List Char → List Char
  | '#' :: rest => rest
  | l => l

/-- Modelled from the spec: the digit-level core of `parseColor` (library
source not in the repository checkout). Three hex digits expand as the
shorthand `abc` = `aabbcc` (each digit `d` becomes `16*d + d = 17*d`); six
digits are read pairwise; anything else is `InvalidColor`. -/
def parseColorChars (cs : List Char) : Except BgError Rgb :=
  match hexList cs with
  | none => Except.error BgError.invalidColor
  | some ds =>
    match ds with
    | [d0, d1, d2] => Except.ok ⟨17 * d0, 17 * d1, 17 * d2⟩
    | [d0, d1, d2, d3, d4, d5] =>
      Except.ok ⟨16 * d0 + d1, 16 * d2 + d3, 16 * d4 + d5⟩
    | _ => Except.error BgError.invalidColor

/-- Modelled from the spec: `parseColor` strips an optional leading hash and
parses 3 or 6 hex digits (library source not in the repository checkout). -/
def parseColor (s : String) : Except BgError Rgb :=
  parseColorChars (stripHash s.toList)

/-- The spec-side characterization of acceptable `parseColor` input: after
stripping an optional leading hash, 3 or 6 characters, all hex digits. -/
def goodColorString (s : String) : Prop :=
  ((stripHash s.toList).length = 3 ∨ (stripHash s.toList).length = 6) ∧
    ∀ ch ∈ stripHash s.toList, (hexDigitVal ch).isSome = true

instance (s : String) : Decidable (goodColorString s) := by
  unfold goodColorString; infer_instance

/-- A decoded image: dimensions plus the row-major list of observed pixel
colors (top to bottom, left to right). The decoder is an external
collaborator; input alpha is not modelled. -/
structure Image where
  width : Nat
  height : Nat
  pixels : List Rgb

/-- An image is well-formed when the buffer has exactly width*height pixels. -/
def Image.wf (img : Image) : Prop :=
  img.pixels.length = img.width * img.height

/-- Pixel lookup in row-major order (black outside the buffer). -/
def pixelAt (img : Image) (x y : Nat) : Rgb :=
  img.pixels.getD (y * img.width + x) ⟨0, 0, 0⟩

/-- All coordinates of a w-by-h image in scan order: top to bottom, then
left to right within a row. -/
def scanPositions (w h : Nat) : List (Nat × Nat) :=
  (List.range h).bind (fun y => (List.range w).map (fun x => (x, y)))

/-- Whether a coordinate lies on one of the four image borders. -/
def isBorder (w h : Nat) (p : Nat × Nat) : Bool :=
  decide (p.2 = 0 ∨ p.2 = h - 1 ∨ p.1 = 0 ∨ p.1 = w - 1)

/-- Modelled from the spec: the border pixels sampled by the background
detector, in scan order (library source not in the repository checkout). -/
def borderPixels (img : Image) : List Rgb :=
  ((scanPositions img.width img.height).filter
    (isBorder img.width img.height)).map (fun p => pixelAt img p.1 p.2)

/-- The largest exact-RGB frequency occurring in a list of colors. -/
def maxCount (l : List Rgb) : Nat :=
  (l.map (fun c => l.count c)).foldr max 0

/-- First element of the list attaining the maximal frequency: the mode with
ties broken by first occurrence. -/
def modeFirst (l : List Rgb) : Option Rgb :=
  l.find? (fun c => l.count c = maxCount l)

/-- Modelled from the spec: `detectBackgroundColor` samples the four image
borders, builds an exact-RGB histogram and returns the mode, ties broken by
scan order; `EmptyImage` when a dimension is zero (library source not in the
repository checkout). -/
def detectBackgroundColor (img : Image) : Except BgError Rgb :=
  if img.width = 0 ∨ img.height = 0 then Except.error BgError.emptyImage
  else
    match modeFirst (borderPixels img) with
    | some c => Except.ok c
    | none => Except.error BgError.emptyImage

/-- The result of unmixing one observed color: per-basis weights and an
overall alpha. -/
structure UnmixResult where
  weights : List Rat
  alpha : Rat
deriving DecidableEq

/-- The channel with the largest absolute denominator, first of `r`, `g`,
`b` on ties. -/
def bestChannel (d : Channel → Rat) : Channel :=
  if |d Channel.r| ≥ |d Channel.g| ∧ |d Channel.r| ≥ |d Channel.b| then Channel.r
  else if |d Channel.g| ≥ |d Channel.b| then Channel.g
  else Channel.b

/-- Modelled from the spec: the single-basis unmix closed form, i.e.
`unmixColor` restricted to a one-element basis (library source not in the
repository checkout). The implied product `alpha * w1` is
`(C_k - G_k) / (F_k - G_k)` at the channel `k` with the largest absolute
denominator; it is clamped to [0,1] and returned as the alpha, with the
weight fixed to 1. -/
def unmixColorSingle (c f g : Rgb) : UnmixResult :=
  let cn := colorToNormalized c
  let fn := colorToNormalized f
  let gn := colorToNormalized g
  let k := bestChannel (fun j => fn.ch j - gn.ch j)
  { weights := [1]
    alpha := clamp01 ((cn.ch k - gn.ch k) / (fn.ch k - gn.ch k)) }

/-- Modelled from the spec: the per-channel lower bound on alpha in the
zero-basis free solve, i.e. the least alpha keeping that channel of
`E = G + (C - G) / alpha` inside [0,1]; zero when the channel already
matches the background (library source not in the repository checkout). -/
def freeAlphaChan (cq gq : Rat) : Rat :=
  if gq < cq then (cq - gq) / (1 - gq)
  else if cq < gq then (gq - cq) / gq
  else 0

/-- Modelled from the spec: the zero-basis alpha, the minimum value such
that `E = G + (C - G) / alpha` lies in [0,1]^3 (library source not in the
repository checkout). -/
def freeAlpha (cn gn : NRgb) : Rat :=
  max (freeAlphaChan cn.r gn.r) (max (freeAlphaChan cn.g gn.g) (freeAlphaChan cn.b gn.b))

/-- The effective foreground color `E = G + (C - G) / alpha`. -/
def freeE (cn gn : NRgb) (alpha : Rat) : NRgb :=
  ⟨gn.r + (cn.r - gn.r) / alpha,
   gn.g + (cn.g - gn.g) / alpha,
   gn.b + (cn.b - gn.b) / alpha⟩

/-- Modelled from the spec: the pixel driver in non-strict mode with no
basis: a pixel equal to the background becomes fully transparent, any other
pixel gets the free solve, emitted as `(E * 255 rounded, alpha * 255
rounded)` (library source not in the repository checkout). -/
def processPixelFree (g c : Rgb) : Rgba :=
  if c = g then ⟨0, 0, 0, 0⟩
  else
    let cn := colorToNormalized c
    let gn := colorToNormalized g
    let alpha := freeAlpha cn gn
    let e := freeE cn gn alpha
    ⟨roundClamp (e.r * 255), roundClamp (e.g * 255), roundClamp (e.b * 255),
     roundClamp (alpha * 255)⟩

/-- Modelled from the spec: the sequential pixel driver in non-strict mode
with no basis, mapping the free solve over the row-major buffer. -/
def processImageFree (g : Rgb) (img : Image) : List Rgba :=
  img.pixels.map (processPixelFree g)

/-- Split a buffer into consecutive slabs with the given sizes, as the
parallel driver partitions rows among workers. -/
def splitSlabs {α : Type} : List Nat → List α → List (List α)
  | [], _ => []
  | n :: ns, l => l.take n :: splitSlabs ns (l.drop n)

/-- Modelled from the spec: the parallel pixel driver: each worker maps the
pure per-pixel kernel over its own slab, and the disjoint results are
reassembled in order (library source not in the repository checkout). -/
def processImageFreeSlabbed (g : Rgb) (img : Image) (sizes : List Nat) : List Rgba :=
  ((splitSlabs sizes img.pixels).map (List.map (processPixelFree g))).flatten

/-- Modelled from the spec: the parallel pixel driver over an arbitrary
per-pixel kernel. Every kernel the spec's Options select - strict or
non-strict, any declared or deduced basis, any threshold - is a pure
function of the observed pixel once the Options are fixed, so it enters
here as the function parameter (library source not in the repository
checkout). -/
def processWithSlabbed (f : Rgb → Rgba) (pixels : List Rgb) (sizes : List Nat) : List Rgba :=
  ((splitSlabs sizes pixels).map (List.map f)).flatten

/-- Modelled from the spec: the trim pass. Scan the buffer for the
bounding box of pixels with nonzero alpha; if none exists return a 1-by-1
fully transparent image, otherwise re-emit the cropped buffer with its
dimensions (library source not in the repository checkout). -/
def trimBuffer (w : Nat) (buf : List Rgba) : Nat × Nat × List Rgba :=
  let ps := (List.range buf.length).filterMap
    (fun i => if (buf.getD i ⟨0, 0, 0, 0⟩).a ≠ 0 then some (i % w, i / w) else none)
  match ps with
  | [] => (1, 1, [⟨0, 0, 0, 0⟩])
  | p :: rest =>
    let minX := (rest.map Prod.fst).foldr min p.1
    let maxX := (rest.map Prod.fst).foldr max p.1
    let minY := (rest.map Prod.snd).foldr min p.2
    let maxY := (rest.map Prod.snd).foldr max p.2
    (maxX + 1 - minX, maxY + 1 - minY,
      (List.range (maxY + 1 - minY)).flatMap (fun dy =>
        (List.range (maxX + 1 - minX)).map (fun dx =>
          buf.getD ((minY + dy) * w + (minX + dx)) ⟨0, 0, 0, 0⟩)))

/-- The optional trim stage of the pipeline: the trim pass when the trim
flag is set, the untouched buffer with its original dimensions otherwise. -/
def applyTrim (doTrim : Bool) (w h : Nat) (buf : List Rgba) : Nat × Nat × List Rgba :=
  if doTrim then trimBuffer w buf else (w, h, buf)

/-- Index of the last occurrence of a character, if any. -/
def lastIdxOf (c : Char) (l : List Char) : Option Nat :=
  match l.reverse.indexOf? c with
  | none => none
  | some j => some (l.length - 1 - j)

/-- The final path segment: characters after the last slash. -/
def lastSegment (p : String) : String :=
  match lastIdxOf '/' p.toList with
  | none => p
  | some i => String.mk (p.toList.drop (i + 1))

/-- Node's `path.dirname` for slash-separated paths without trailing
slashes. -/
def dirnameStr (p : String) : String :=
  match lastIdxOf '/' p.toList with
  | none => "."
  | some 0 => "/"
  | some i => String.mk (p.toList.take i)

/-- Node's `path.extname`: the suffix of the last segment from its last
dot, empty when there is no dot or the dot is the segment's first
character. -/
def extnameStr (p : String) : String :=
  let seg := (lastSegment p).toList
  match lastIdxOf '.' seg with
  | none => ""
  | some 0 => ""
  | some i => String.mk (seg.drop i)

/-- The input stem as cli.js computes it: `basename(input, extname(input))`. -/
def stem (p : String) : String :=
  (lastSegment p).dropRight (extnameStr p).length

/-- Node's `path.join` for the shapes produced by `dirnameStr`. -/
def pathJoin (dir file : String) : String :=
  if dir = "." then file
  else if dir = "/" then ("/") ++ file
  else dir ++ "/" ++ file

/-- The sequence of output paths probed by cli.js `generateOutputPath`:
`<stem>-bgone.png` first, then `<stem>-bgone-1.png`, `<stem>-bgone-2.png`,
and so on, all in the input's directory. -/
def outputCandidate (input : String) : Nat → String
  | 0 => pathJoin (dirnameStr input) (stem input ++ "-bgone.png")
  | Nat.succ n =>
    pathJoin (dirnameStr input)
      (stem input ++ "-bgone-" ++ Nat.repr (n + 1) ++ ".png")

/-- cli.js `generateOutputPath`: the while loop probing `existsSync` on each
candidate in turn and returning the first name that does not exist. The
hypothesis is the loop's termination condition (some candidate is unused);
`Nat.find` returns the first such index, exactly as the loop does. -/
def generateOutputPath (ex : String → Bool) (input : String)
    (h : ∃ n, ex (outputCandidate input n) = false) : String :=
  outputCandidate input (Nat.find h)

/-- The CLI flags as parsed by commander in cli.js. -/
structure CliOptions where
  bg : Option String
  fg : Option (List String)
  strict : Bool
  threshold : Option Rat
  trim : Bool
  detect : Bool

/-- The ambient effects of one CLI invocation: whether the input path
exists, what `detectBackgroundColor` returns on the input buffer, and what
`processImageSync` returns (errors carry their message strings, as
`error.message` does in cli.js). The file write is assumed to succeed. -/
structure CliEnv where
  existsFile : String → Bool
  detectResult : Except String Rgb
  processResult : Except String (List Nat)

/-- The observable outcome of one CLI invocation. `uncaughtError` records
an exception that escaped the action (Node then reports the exception text
and stack on stderr - not a single `Error: ` line - and exits with code 1).
`stderrLines` holds only lines printed via `console.error`. -/
structure CliOutcome where
  exitCode : Nat
  stderrLines : List String
  stdoutLines : List String
  writtenFiles : List String
  uncaughtError : Option String
  processInvoked : Bool
  outputPathComputed : Bool

/-- One color channel as two lowercase hex digits, as cli.js formats it
with `toString(16).padStart(2, 0)`. -/
def hexByte (n : Nat) : String :=
  let s := String.mk (Nat.toDigits 16 n)
  if s.length < 2 then ("0") ++ s else s

/-- The hex string cli.js prints for a detected background color. -/
def rgbHexString (c : Rgb) : String :=
  "#" ++ hexByte c.r ++ hexByte c.g ++ hexByte c.b

/-- The tail of cli.js's action: the try/catch around `processImageSync`
and the file write. On success the output file is written and the path
logged; on any thrown error a single `Error: ` line goes to stderr and the
process exits 1. (The per-option echo logs between the header and the try
block are elided; they only add stdout lines.) -/
def cliProcess (env : CliEnv) (outputPath : String) (logs : List String) : CliOutcome :=
  match env.processResult with
  | Except.ok _ =>
    { exitCode := 0
      stderrLines := []
      stdoutLines := logs ++ ["Output: " ++ outputPath]
      writtenFiles := [outputPath]
      uncaughtError := none
      processInvoked := true
      outputPathComputed := true }
  | Except.error e =>
    { exitCode := 1
      stderrLines := ["Error: " ++ e]
      stdoutLines := logs
      writtenFiles := []
      uncaughtError := none
      processInvoked := true
      outputPathComputed := true }

/-- cli.js's program action, line by line: missing input check, the
`--detect` early return (whose `detectBackgroundColor` call sits outside
any try/catch, so its errors escape as uncaught exceptions), output path
resolution, background auto-detection for logging (also outside the
try/catch), then the guarded processing tail. The `hfind` hypothesis is the
termination condition of `generateOutputPath`'s probing loop. -/
def cliAction (env : CliEnv) (input : String) (output : Option String)
    (opts : CliOptions)
    (hfind : ∃ n, env.existsFile (outputCandidate input n) = false) : CliOutcome :=
  if env.existsFile input = false then
    { exitCode := 1
      stderrLines := ["Error: Input file not found: " ++ input]
      stdoutLines := []
      writtenFiles := []
      uncaughtError := none
      processInvoked := false
      outputPathComputed := false }
  else if opts.detect then
    match env.detectResult with
    | Except.error e =>
      { exitCode := 1
        stderrLines := []
        stdoutLines := []
        writtenFiles := []
        uncaughtError := some e
        processInvoked := false
        outputPathComputed := false }
    | Except.ok c =>
      { exitCode := 0
        stderrLines := []
        stdoutLines :=
          ["Detected background color: " ++ rgbHexString c ++ " (rgb(" ++
            Nat.repr c.r ++ ", " ++ Nat.repr c.g ++ ", " ++ Nat.repr c.b ++ "))"]
        writtenFiles := []
        uncaughtError := none
        processInvoked := false
        outputPathComputed := false }
  else
    let outputPath :=
      match output with
      | some o => o
      | none => generateOutputPath env.existsFile input hfind
    let headerLogs := ["Processing: " ++ input]
    match opts.bg with
    | some bgStr =>
      cliProcess env outputPath (headerLogs ++ ["  Background: " ++ bgStr])
    | none =>
      match env.detectResult with
      | Except.error e =>
        { exitCode := 1
          stderrLines := []
          stdoutLines := headerLogs
          writtenFiles := []
          uncaughtError := some e
          processInvoked := false
          outputPathComputed := true }
      | Except.ok c =>
        cliProcess env outputPath
          (headerLogs ++ ["  Background: " ++ rgbHexString c ++ " (auto-detected)"])

/-- Rounding then clamping an 8-bit integer value is the identity. -/
theorem roundClamp_natCast (n : Nat) (h : n ≤ 255) : roundClamp (n : Rat) = n := by
  unfold roundClamp clamp255
  rw [round_natCast]
  omega

/-- Every channel's absolute denominator is at most the one of the chosen
channel. -/
theorem bestChannel_spec (d : Channel → Rat) : ∀ j, |d j| ≤ |d (bestChannel d)| := by
  intro j
  unfold bestChannel
  split_ifs with h1 h2
  · obtain ⟨ha, hb⟩ := h1
    cases j
    · exact le_refl _
    · exact ha
    · exact hb
  · push_neg at h1
    cases j
    · rcases le_or_lt |d Channel.g| |d Channel.r| with hc | hc
      · have := h1 hc
        linarith
      · linarith
    · exact le_refl _
    · exact h2
  · push_neg at h1 h2
    cases j
    · rcases le_or_lt |d Channel.g| |d Channel.r| with hc | hc
      · have := h1 hc
        linarith
      · linarith
    · exact le_of_lt h2
    · exact le_refl _

/-- C1: for a single-basis call, `unmixColor` fixes the weights to `[1.0]`
and returns as alpha the clamp to [0,1] of `(C_k - G_k) / (F_k - G_k)` at a
channel `k` whose absolute denominator `|F_k - G_k|` is largest; in
particular `unmixColor({128,0,0}, [{255,0,0}], {0,0,0})` yields weights
`[1.0]` and alpha `128/255`, which is within 0.001 of 0.502. -/
theorem claim_C1 :
    (∀ c f g : Rgb, ∃ k : Channel,
      (∀ j : Channel,
        |(colorToNormalized f).ch j - (colorToNormalized g).ch j| ≤
          |(colorToNormalized f).ch k - (colorToNormalized g).ch k|) ∧
      unmixColorSingle c f g =
        { weights := [1]
          alpha := clamp01 (((colorToNormalized c).ch k - (colorToNormalized g).ch k) /
            ((colorToNormalized f).ch k - (colorToNormalized g).ch k)) }) ∧
    unmixColorSingle ⟨128, 0, 0⟩ ⟨255, 0, 0⟩ ⟨0, 0, 0⟩ =
      { weights := [1], alpha := 128 / 255 } ∧
    |(128 : Rat) / 255 - 502 / 1000| < 1 / 1000 := by
  refine ⟨?_, ?_, ?_⟩
  · intro c f g
    exact ⟨bestChannel (fun j => (colorToNormalized f).ch j - (colorToNormalized g).ch j),
      bestChannel_spec _, rfl⟩
  · simp only [unmixColorSingle, bestChannel, colorToNormalized, clamp01, NRgb.ch, Rgb.ch,
      UnmixResult.mk.injEq]
    norm_num
  · rw [show (128 : Rat) / 255 - 502 / 1000 = -(1 / 25500) by norm_num, abs_neg,
      abs_of_nonneg (by norm_num)]
    norm_num

/-- C3: normalizing an 8-bit color and mapping it back is the identity on
every triple with channels in [0,255]. -/
theorem claim_C3 (c : Rgb) (h : c.valid) :
    normalizedToColor (colorToNormalized c) = c := by
  obtain ⟨h1, h2, h3⟩ := h
  have e : ∀ n : Nat, n ≤ 255 → roundClamp ((n : Rat) / 255 * 255) = n := by
    intro n hn
    rw [div_mul_cancel₀ _ (by norm_num : (255 : Rat) ≠ 0)]
    exact roundClamp_natCast n hn
  cases c with
  | mk r g b =>
    simp only [normalizedToColor, colorToNormalized] at *
    rw [e r h1, e g h2, e b h3]

/-- Witness for C3 at the tested triple (100, 150, 200). -/
theorem claim_C3_witness :
    normalizedToColor (colorToNormalized ⟨100, 150, 200⟩) = ⟨100, 150, 200⟩ :=
  claim_C3 ⟨100, 150, 200⟩ (by decide)

/-- C7: `compositeOverBackground` computes per channel the rounded clamp of
`alpha * fg + (1 - alpha) * bg` with `alpha = a / 255`, and on a fully
opaque pixel returns the pixel's own color triple for any background. -/
theorem claim_C7 (p : Rgba) (bg : Rgb) (hp : p.valid) :
    (∀ k : Channel, (compositeOverBackground p bg).ch k =
      roundClamp ((p.a : Rat) / 255 * (p.ch k : Rat) +
        (1 - (p.a : Rat) / 255) * (bg.ch k : Rat))) ∧
    (p.a = 255 → compositeOverBackground p bg = ⟨p.r, p.g, p.b⟩) := by
  constructor
  · intro k
    cases k <;> rfl
  · intro ha
    obtain ⟨h1, h2, h3, _⟩ := hp
    have e : ∀ (x y : Nat), x ≤ 255 →
        roundClamp ((255 : Rat) / 255 * (x : Rat) + (1 - (255 : Rat) / 255) * (y : Rat)) = x := by
      intro x y hx
      norm_num
      exact roundClamp_natCast x hx
    cases p with
    | mk pr pg pb pa =>
      cases ha
      simp only [compositeOverBackground, Nat.cast_ofNat]
      rw [e pr bg.r h1, e pg bg.g h2, e pb bg.b h3]

/-- Witness for C7 at an opaque pixel over a nontrivial background. -/
theorem claim_C7_witness :
    compositeOverBackground ⟨10, 20, 30, 255⟩ ⟨1, 2, 3⟩ = ⟨10, 20, 30⟩ :=
  (claim_C7 ⟨10, 20, 30, 255⟩ ⟨1, 2, 3⟩ (by decide)).2 rfl

/-- C9: with no output argument, cli.js probes `<stem>-bgone.png` in the
input's directory and then `<stem>-bgone-1.png`, `<stem>-bgone-2.png`, ...,
and returns the first candidate that does not exist, every earlier candidate
existing. -/
theorem claim_C9 (ex : String → Bool) (input : String)
    (h : ∃ n, ex (outputCandidate input n) = false) :
    (∃ n, generateOutputPath ex input h = outputCandidate input n ∧
      ex (outputCandidate input n) = false ∧
      ∀ m, m < n → ex (outputCandidate input m) = true) ∧
    outputCandidate input 0 = pathJoin (dirnameStr input) (stem input ++ "-bgone.png") ∧
    ∀ n : Nat, outputCandidate input (n + 1) =
      pathJoin (dirnameStr input) (stem input ++ "-bgone-" ++ Nat.repr (n + 1) ++ ".png") := by
  refine ⟨⟨Nat.find h, rfl, Nat.find_spec h, ?_⟩, rfl, fun n => rfl⟩
  intro m hm
  have hmin := Nat.find_min h hm
  cases hb : ex (outputCandidate input m)
  · exact absurd hb hmin
  · rfl

/-- Witness for C9: on a filesystem with no existing files, the first
candidate is taken at once. -/
theorem claim_C9_witness :
    ∃ n, generateOutputPath (fun _ => false) "a.png" ⟨0, rfl⟩ = outputCandidate ("a.png") n ∧
      (fun _ => false : String → Bool) (outputCandidate ("a.png") n) = false ∧
      ∀ m, m < n → (fun _ => false : String → Bool) (outputCandidate ("a.png") m) = true :=
  (claim_C9 (fun _ => false) "a.png" ⟨0, rfl⟩).1

/-- A character list converts to hex digits exactly when every character is
a hex digit. -/
theorem hexList_isSome_iff (cs : List Char) :
    (hexList cs).isSome = true ↔ ∀ ch ∈ cs, (hexDigitVal ch).isSome = true := by
  induction cs with
  | nil => simp [hexList]
  | cons ch rest ih =>
    cases hd : hexDigitVal ch with
    | none => simp [hexList, hd, List.forall_mem_cons]
    | some d =>
      cases hr : hexList rest with
      | none =>
        simp only [hexList, hd, hr, List.forall_mem_cons]
        constructor
        · intro hfalse
          simp at hfalse
        · intro ⟨_, hall⟩
          have := ih.2 hall
          rw [hr] at this
          simp at this
      | some es =>
        simp only [hexList, hd, hr, List.forall_mem_cons]
        constructor
        · intro _
          refine ⟨rfl, ?_⟩
          apply ih.1
          rw [hr]
          rfl
        · intro _
          rfl

/-- `hexList` preserves length. -/
theorem hexList_length (cs : List Char) (ds : List Nat) (h : hexList cs = some ds) :
    ds.length = cs.length := by
  induction cs generalizing ds with
  | nil =>
    simp only [hexList] at h
    cases h
    rfl
  | cons ch rest ih =>
    cases hd : hexDigitVal ch with
    | none => simp [hexList, hd] at h
    | some d =>
      cases hr : hexList rest with
      | none => simp [hexList, hd, hr] at h
      | some es =>
        simp only [hexList, hd, hr] at h
        cases h
        simp [ih es hr]

/-- `parseColorChars` either succeeds or fails with `InvalidColor`. -/
theorem parseColorChars_cases (cs : List Char) :
    (∃ c, parseColorChars cs = Except.ok c) ∨
      parseColorChars cs = Except.error BgError.invalidColor := by
  unfold parseColorChars
  cases hexList cs with
  | none => exact Or.inr rfl
  | some ds =>
    rcases ds with _ | ⟨a, _ | ⟨b, _ | ⟨c, _ | ⟨d, _ | ⟨e, _ | ⟨f, _ | ⟨g, rest⟩⟩⟩⟩⟩⟩⟩
    · exact Or.inr rfl
    · exact Or.inr rfl
    · exact Or.inr rfl
    · exact Or.inl ⟨_, rfl⟩
    · exact Or.inr rfl
    · exact Or.inr rfl
    · exact Or.inl ⟨_, rfl⟩
    · exact Or.inr rfl

/-- Success of `parseColorChars` is exactly: 3 or 6 characters, all hex. -/
theorem parseColorChars_ok_iff (cs : List Char) :
    (∃ c, parseColorChars cs = Except.ok c) ↔
      ((cs.length = 3 ∨ cs.length = 6) ∧ ∀ ch ∈ cs, (hexDigitVal ch).isSome = true) := by
  cases hh : hexList cs with
  | none =>
    have hbad : ¬ ∀ ch ∈ cs, (hexDigitVal ch).isSome = true := by
      intro hall
      have := (hexList_isSome_iff cs).2 hall
      rw [hh] at this
      cases this
    constructor
    · intro ⟨c, hc⟩
      unfold parseColorChars at hc
      rw [hh] at hc
      cases hc
    · intro ⟨_, hall⟩
      exact absurd hall hbad
  | some ds =>
    have hall : ∀ ch ∈ cs, (hexDigitVal ch).isSome = true := by
      apply (hexList_isSome_iff cs).1
      rw [hh]
      rfl
    have hlen : ds.length = cs.length := hexList_length cs ds hh
    unfold parseColorChars
    rw [hh]
    simp only [hall, and_true]
    rw [← hlen]
    rcases ds with _ | ⟨a, _ | ⟨b, _ | ⟨c, _ | ⟨d, _ | ⟨e, _ | ⟨f, _ | ⟨g, rest⟩⟩⟩⟩⟩⟩⟩ <;>
      simp <;> exact hall

/-- C6: `parseColor` succeeds exactly on strings that, after an optional
leading hash, consist of 3 or 6 hex digits (case-insensitive); 3-digit
shorthand parses as its doubled 6-digit form; every other input fails with
`InvalidColor`. -/
theorem claim_C6 :
    (∀ s : String, (∃ c, parseColor s = Except.ok c) ↔ goodColorString s) ∧
    (∀ s : String, ¬ goodColorString s → parseColor s = Except.error BgError.invalidColor) ∧
    (∀ d0 d1 d2 : Char, (hexDigitVal d0).isSome = true → (hexDigitVal d1).isSome = true →
      (hexDigitVal d2).isSome = true →
      parseColorChars [d0, d1, d2] = parseColorChars [d0, d0, d1, d1, d2, d2]) := by
  refine ⟨?_, ?_, ?_⟩
  · intro s
    exact parseColorChars_ok_iff (stripHash s.toList)
  · intro s hbad
    rcases parseColorChars_cases (stripHash s.toList) with ⟨c, hc⟩ | he
    · exact absurd ((parseColorChars_ok_iff (stripHash s.toList)).1 ⟨c, hc⟩) hbad
    · exact he
  · intro d0 d1 d2 h0 h1 h2
    obtain ⟨v0, e0⟩ := Option.isSome_iff_exists.1 h0
    obtain ⟨v1, e1⟩ := Option.isSome_iff_exists.1 h1
    obtain ⟨v2, e2⟩ := Option.isSome_iff_exists.1 h2
    simp only [parseColorChars, hexList, e0, e1, e2, Except.ok.injEq, Rgb.mk.injEq]
    omega

/-- Witness for C6: the tested input string fails with `InvalidColor`. -/
theorem claim_C6_witness : parseColor ("invalid") = Except.error BgError.invalidColor :=
  claim_C6.2.1 ("invalid") (by decide)

/-- The fold of `max` over a nonempty list of naturals is one of its
elements. -/
theorem foldr_max_mem (ns : List Nat) (h : ns ≠ []) : ns.foldr max 0 ∈ ns := by
  induction ns with
  | nil => exact absurd rfl h
  | cons a t ih =>
    cases t with
    | nil => simp
    | cons b u =>
      have hfold : List.foldr max 0 (a :: b :: u) = max a (List.foldr max 0 (b :: u)) := rfl
      rcases max_choice a (List.foldr max 0 (b :: u)) with he | he
      · rw [hfold, he]
        exact List.mem_cons_self a _
      · rw [hfold, he]
        exact List.mem_cons_of_mem a (ih (by simp))

/-- Every element is bounded by the fold of `max`. -/
theorem le_foldr_max (ns : List Nat) (a : Nat) (h : a ∈ ns) : a ≤ ns.foldr max 0 := by
  induction ns with
  | nil => simp at h
  | cons b t ih =>
    rcases List.mem_cons.1 h with rfl | hm
    · exact le_max_left _ _
    · exact le_trans (ih hm) (le_max_right _ _)

/-- A successful `find?` splits its list at the first hit: everything
before the result fails the predicate. -/
theorem find?_split {α : Type} (p : α → Bool) (l : List α) (c : α)
    (h : l.find? p = some c) :
    p c = true ∧ ∃ pre suf, l = pre ++ c :: suf ∧ ∀ x ∈ pre, p x = false := by
  induction l with
  | nil => simp at h
  | cons a t ih =>
    cases hp : p a
    · have h' : t.find? p = some c := by
        rw [List.find?_cons_of_neg _ (by simp [hp])] at h
        exact h
      obtain ⟨hc, pre, suf, hsplit, hpre⟩ := ih h'
      refine ⟨hc, a :: pre, suf, by rw [hsplit]; rfl, ?_⟩
      intro x hx
      rcases List.mem_cons.1 hx with rfl | hm
      · exact hp
      · exact hpre x hm
    · have hac : a = c := by
        rw [List.find?_cons_of_pos _ hp] at h
        exact Option.some.inj h
      subst hac
      exact ⟨hp, [], t, rfl, by simp⟩

/-- A predicate satisfied somewhere in a list makes `find?` succeed. -/
theorem find?_eq_some_of_exists {α : Type} (p : α → Bool) (l : List α)
    (h : ∃ x ∈ l, p x = true) : ∃ c, l.find? p = some c := by
  induction l with
  | nil => simp at h
  | cons a t ih =>
    cases hp : p a
    · obtain ⟨x, hx, hpx⟩ := h
      rcases List.mem_cons.1 hx with rfl | hm
      · rw [hp] at hpx
        cases hpx
      · obtain ⟨c, hc⟩ := ih ⟨x, hm, hpx⟩
        exact ⟨c, by rw [List.find?_cons_of_neg _ (by simp [hp])]; exact hc⟩
    · exact ⟨a, List.find?_cons_of_pos _ hp⟩

/-- The maximal frequency is attained in a nonempty color list. -/
theorem maxCount_attained (l : List Rgb) (h : l ≠ []) :
    ∃ x ∈ l, l.count x = maxCount l := by
  have hmem : maxCount l ∈ l.map (fun c => l.count c) :=
    foldr_max_mem _ (by simpa using h)
  obtain ⟨x, hx, he⟩ := List.mem_map.1 hmem
  exact ⟨x, hx, he⟩

/-- Every frequency is at most the maximal frequency. -/
theorem count_le_maxCount (l : List Rgb) (d : Rgb) (h : d ∈ l) :
    l.count d ≤ maxCount l :=
  le_foldr_max _ _ (List.mem_map.2 ⟨d, h, rfl⟩)

/-- A nonzero-dimension image has border pixels. -/
theorem borderPixels_ne_nil (img : Image) (hw : img.width ≠ 0) (hh : img.height ≠ 0) :
    borderPixels img ≠ [] := by
  have hmem : ((0, 0) : Nat × Nat) ∈ scanPositions img.width img.height := by
    unfold scanPositions
    refine List.mem_bind.2 ⟨0, List.mem_range.2 (Nat.pos_of_ne_zero hh), ?_⟩
    exact List.mem_map.2 ⟨0, List.mem_range.2 (Nat.pos_of_ne_zero hw), rfl⟩
  have hb : isBorder img.width img.height (0, 0) = true := by
    unfold isBorder
    simp
  have hmf : ((0, 0) : Nat × Nat) ∈
      (scanPositions img.width img.height).filter (isBorder img.width img.height) :=
    List.mem_filter.2 ⟨hmem, hb⟩
  unfold borderPixels
  intro hnil
  rw [List.map_eq_nil] at hnil
  rw [hnil] at hmf
  cases hmf

/-- C5: `detectBackgroundColor` fails with `EmptyImage` exactly when a
dimension is zero; otherwise it returns a border pixel of maximal exact-RGB
frequency that is the first such pixel in scan order: all strictly earlier
border pixels have strictly smaller frequency. -/
theorem claim_C5 (img : Image) :
    (detectBackgroundColor img = Except.error BgError.emptyImage ↔
      img.width = 0 ∨ img.height = 0) ∧
    (∀ c, detectBackgroundColor img = Except.ok c →
      ∃ pre suf, borderPixels img = pre ++ c :: suf ∧
        (∀ d ∈ borderPixels img,
          (borderPixels img).count d ≤ (borderPixels img).count c) ∧
        (∀ d ∈ pre, (borderPixels img).count d < (borderPixels img).count c)) := by
  constructor
  · constructor
    · intro he
      by_contra hzero
      push_neg at hzero
      obtain ⟨hw, hh⟩ := hzero
      have hne := borderPixels_ne_nil img hw hh
      obtain ⟨x, hx, hcx⟩ := maxCount_attained (borderPixels img) hne
      obtain ⟨c, hc⟩ := find?_eq_some_of_exists
        (fun d => decide ((borderPixels img).count d = maxCount (borderPixels img)))
        (borderPixels img) ⟨x, hx, by simp [hcx]⟩
      unfold detectBackgroundColor at he
      rw [if_neg (by tauto)] at he
      unfold modeFirst at he
      rw [hc] at he
      cases he
    · intro hzero
      unfold detectBackgroundColor
      rw [if_pos hzero]
  · intro c hok
    unfold detectBackgroundColor at hok
    by_cases hzero : img.width = 0 ∨ img.height = 0
    · rw [if_pos hzero] at hok
      cases hok
    · rw [if_neg hzero] at hok
      cases hmf : modeFirst (borderPixels img) with
      | none =>
        rw [hmf] at hok
        cases hok
      | some c2 =>
        rw [hmf] at hok
        have hcc : c2 = c := Option.some.inj (by simpa using hok.symm) |>.symm
        subst hcc
        unfold modeFirst at hmf
        obtain ⟨hpc, pre, suf, hsplit, hpre⟩ := find?_split _ _ _ hmf
        have hcmax : (borderPixels img).count c2 = maxCount (borderPixels img) := by
          simpa using hpc
        have hcmem : c2 ∈ borderPixels img := by
          rw [hsplit]
          exact List.mem_append.2 (Or.inr (List.mem_cons_self _ _))
        refine ⟨pre, suf, hsplit, ?_, ?_⟩
        · intro d hd
          rw [hcmax]
          exact count_le_maxCount _ _ hd
        · intro d hd
          have hdmem : d ∈ borderPixels img := by
            rw [hsplit]
            exact List.mem_append.2 (Or.inl hd)
          have hdle := count_le_maxCount _ _ hdmem
          have hdne : (borderPixels img).count d ≠ maxCount (borderPixels img) := by
            have := hpre d hd
            simpa using this
          rw [hcmax]
          omega

/-- An output clamp keeps the value at most 255. -/
theorem clamp255_le (z : Int) : clamp255 z ≤ 255 := by
  unfold clamp255
  omega

/-- On [0,255] the round-and-clamp step is plain rounding, off by at most
one half. -/
theorem roundClamp_eq (x : Rat) (h0 : 0 ≤ x) (h1 : x ≤ 255) :
    ((roundClamp x : Int) = round x) ∧ |(roundClamp x : Rat) - x| ≤ 1/2 := by
  have habs := abs_sub_round x
  have hpair := abs_le.1 habs
  have h2 : ((-1 : Int) : Rat) < (round x : Rat) := by
    push_cast
    linarith [hpair.1, hpair.2]
  have h3 : ((round x : Rat)) < ((256 : Int) : Rat) := by
    push_cast
    linarith [hpair.1, hpair.2]
  have h2i : (-1 : Int) < round x := by exact_mod_cast h2
  have h3i : round x < (256 : Int) := by exact_mod_cast h3
  have hmain : (roundClamp x : Int) = round x := by
    unfold roundClamp clamp255
    omega
  refine ⟨hmain, ?_⟩
  have hcast : (roundClamp x : Rat) = (round x : Rat) := by
    exact_mod_cast congrArg (fun z : Int => (z : Rat)) hmain
  rw [hcast, abs_sub_comm]
  exact habs

/-- Clamping to [0,255] can only move a value closer to an 8-bit target. -/
theorem clamp255_dist_le (z : Int) (c : Nat) (hc : c ≤ 255) :
    |(clamp255 z : Int) - (c : Int)| ≤ |z - (c : Int)| := by
  have h1 := le_abs_self (z - (c : Int))
  have h2 := neg_abs_le (z - (c : Int))
  have hw : (clamp255 z : Int) = min 255 (max 0 z) := by
    unfold clamp255
    omega
  rw [hw, abs_le]
  constructor <;> omega

/-- The single-channel reconstruction bound: an exact unmix relation
survives 8-bit quantization of the effective color and the alpha, then
re-compositing, to within one intensity unit. -/
theorem freeChannel_bound (c g : Nat) (alpha e : Rat)
    (hc : c ≤ 255) (hg : g ≤ 255)
    (ha0 : 0 < alpha) (ha1 : alpha ≤ 1)
    (he0 : 0 ≤ e) (he1 : e ≤ 1)
    (hrecon : alpha * (255 * e - (g : Rat)) = (c : Rat) - (g : Rat)) :
    |((roundClamp ((roundClamp (alpha * 255) : Rat) / 255 * (roundClamp (e * 255) : Rat) +
        (1 - (roundClamp (alpha * 255) : Rat) / 255) * (g : Rat)) : Int)) - (c : Int)| ≤ 1 := by
  obtain ⟨ha8i, ha8d⟩ := roundClamp_eq (alpha * 255) (by positivity) (by nlinarith)
  obtain ⟨he8i, he8d⟩ := roundClamp_eq (e * 255) (by positivity) (by nlinarith)
  set a8 := roundClamp (alpha * 255) with ha8def
  set e8 := roundClamp (e * 255) with he8def
  set v : Rat := (a8 : Rat) / 255 * (e8 : Rat) + (1 - (a8 : Rat) / 255) * (g : Rat) with hvdef
  have he8le : (e8 : Rat) ≤ 255 := by
    have h255 : e8 ≤ 255 := clamp255_le (round (e * 255))
    exact_mod_cast h255
  have hgle : (g : Rat) ≤ 255 := by exact_mod_cast hg
  have hcq : (c : Rat) = (g : Rat) + alpha * (255 * e - (g : Rat)) := by linarith
  have hv : v - (c : Rat) =
      alpha * ((e8 : Rat) - e * 255) +
        (((a8 : Rat) - alpha * 255) / 255) * ((e8 : Rat) - (g : Rat)) := by
    rw [hvdef, hcq]
    field_simp
    ring
  have habs1 : |alpha * ((e8 : Rat) - e * 255)| ≤ 1 / 2 := by
    rw [abs_mul, abs_of_pos ha0]
    calc alpha * |(e8 : Rat) - e * 255| ≤ 1 * (1 / 2) :=
          mul_le_mul ha1 he8d (abs_nonneg _) (by norm_num)
      _ = 1 / 2 := by norm_num
  have heg : |(e8 : Rat) - (g : Rat)| ≤ 255 := by
    rw [abs_le]
    have he8n : (0 : Rat) ≤ (e8 : Rat) := Nat.cast_nonneg e8
    have hgn : (0 : Rat) ≤ (g : Rat) := Nat.cast_nonneg g
    constructor <;> linarith
  have habs2 : |(((a8 : Rat) - alpha * 255) / 255) * ((e8 : Rat) - (g : Rat))| ≤ 1 / 2 := by
    rw [abs_mul, abs_div, abs_of_pos (by norm_num : (0 : Rat) < 255)]
    calc |(a8 : Rat) - alpha * 255| / 255 * |(e8 : Rat) - (g : Rat)| ≤
        (1 / 2) / 255 * 255 := by
          apply mul_le_mul _ heg (abs_nonneg _) (by norm_num)
          exact (div_le_div_iff_of_pos_right (by norm_num)).2 ha8d
      _ = 1 / 2 := by norm_num
  have htot : |v - (c : Rat)| ≤ 1 := by
    rw [hv]
    calc |alpha * ((e8 : Rat) - e * 255) +
        (((a8 : Rat) - alpha * 255) / 255) * ((e8 : Rat) - (g : Rat))| ≤
        |alpha * ((e8 : Rat) - e * 255)| +
          |(((a8 : Rat) - alpha * 255) / 255) * ((e8 : Rat) - (g : Rat))| := abs_add _ _
      _ ≤ 1 / 2 + 1 / 2 := add_le_add habs1 habs2
      _ = 1 := by norm_num
  have hrv : |(round v : Rat) - v| ≤ 1 / 2 := by
    rw [abs_sub_comm]
    exact abs_sub_round v
  have h32 : |(round v : Rat) - (c : Rat)| ≤ 3 / 2 := by
    calc |(round v : Rat) - (c : Rat)| =
        |((round v : Rat) - v) + (v - (c : Rat))| := by ring_nf
      _ ≤ |(round v : Rat) - v| + |v - (c : Rat)| := abs_add _ _
      _ ≤ 1 / 2 + 1 := add_le_add hrv htot
      _ = 3 / 2 := by norm_num
  have hfin : |round v - (c : Int)| ≤ 1 := by
    by_contra hcon
    push_neg at hcon
    have h2le : (2 : Int) ≤ |round v - (c : Int)| := by omega
    have h2q : (2 : Rat) ≤ ((|round v - (c : Int)| : Int) : Rat) := by exact_mod_cast h2le
    rw [Int.cast_abs] at h2q
    push_cast at h2q
    linarith
  have hrc : (roundClamp v : Int) = (clamp255 (round v) : Int) := rfl
  calc |(roundClamp v : Int) - (c : Int)| = |(clamp255 (round v) : Int) - (c : Int)| := by
        rw [hrc]
    _ ≤ |round v - (c : Int)| := clamp255_dist_le _ c hc
    _ ≤ 1 := hfin

/-- The per-channel free alpha is nonnegative on valid inputs. -/
theorem freeAlphaChan_nonneg (cq gq : Rat) (hc0 : 0 ≤ cq) (hc1 : cq ≤ 1)
    (hg0 : 0 ≤ gq) (hg1 : gq ≤ 1) : 0 ≤ freeAlphaChan cq gq := by
  unfold freeAlphaChan
  split_ifs with h1 h2
  · exact div_nonneg (by linarith) (by linarith)
  · exact div_nonneg (by linarith) (by linarith)
  · exact le_refl 0

/-- The per-channel free alpha is at most one on valid inputs. -/
theorem freeAlphaChan_le_one (cq gq : Rat) (hc0 : 0 ≤ cq) (hc1 : cq ≤ 1)
    (hg0 : 0 ≤ gq) (hg1 : gq ≤ 1) : freeAlphaChan cq gq ≤ 1 := by
  unfold freeAlphaChan
  split_ifs with h1 h2
  · rw [div_le_one (by linarith)]
    linarith
  · rw [div_le_one (by linarith)]
    linarith
  · norm_num

/-- The per-channel free alpha is positive when the channel differs from
the background. -/
theorem freeAlphaChan_pos (cq gq : Rat) (hc0 : 0 ≤ cq) (hc1 : cq ≤ 1)
    (hg0 : 0 ≤ gq) (hg1 : gq ≤ 1) (hne : cq ≠ gq) : 0 < freeAlphaChan cq gq := by
  unfold freeAlphaChan
  split_ifs with h1 h2
  · exact div_pos (by linarith) (by linarith)
  · exact div_pos (by linarith) (by linarith)
  · exact absurd (le_antisymm (by linarith) (by linarith)) hne

/-- Any alpha at least the per-channel free alpha keeps that channel of the
effective color inside [0,1]. -/
theorem freeE_chan_mem (cq gq alpha : Rat) (hc0 : 0 ≤ cq) (hc1 : cq ≤ 1)
    (hg0 : 0 ≤ gq) (hg1 : gq ≤ 1) (ha0 : 0 < alpha)
    (hle : freeAlphaChan cq gq ≤ alpha) :
    0 ≤ gq + (cq - gq) / alpha ∧ gq + (cq - gq) / alpha ≤ 1 := by
  unfold freeAlphaChan at hle
  rcases lt_trichotomy gq cq with h1 | h1 | h1
  · rw [if_pos h1] at hle
    have hden : 0 < 1 - gq := by linarith
    have hkey : cq - gq ≤ alpha * (1 - gq) := by
      rw [div_le_iff hden] at hle
      linarith
    have hub : (cq - gq) / alpha ≤ 1 - gq := by
      rw [div_le_iff ha0]
      linarith [mul_comm alpha (1 - gq)]
    have hlb : 0 ≤ (cq - gq) / alpha := div_nonneg (by linarith) (le_of_lt ha0)
    constructor <;> linarith
  · rw [if_neg (by linarith), if_neg (by linarith)] at hle
    rw [← h1]
    simp
    constructor <;> linarith
  · rw [if_neg (by linarith), if_pos h1] at hle
    have hden : 0 < gq := by linarith
    have hkey : gq - cq ≤ alpha * gq := by
      rw [div_le_iff hden] at hle
      linarith
    have hub : (gq - cq) / alpha ≤ gq := by
      rw [div_le_iff ha0]
      linarith [mul_comm alpha gq]
    have hlb : 0 ≤ (gq - cq) / alpha := div_nonneg (by linarith) (le_of_lt ha0)
    have hneg : (cq - gq) / alpha = -((gq - cq) / alpha) := by ring
    rw [hneg]
    constructor <;> linarith

/-- The channel of a normalized color is its 8-bit channel divided by 255. -/
theorem colorToNormalized_ch (c : Rgb) (k : Channel) :
    (colorToNormalized c).ch k = (c.ch k : Rat) / 255 := by
  cases k <;> rfl

/-- Channels of a valid color are at most 255. -/
theorem valid_ch (c : Rgb) (h : c.valid) (k : Channel) : c.ch k ≤ 255 := by
  obtain ⟨h1, h2, h3⟩ := h
  cases k
  · exact h1
  · exact h2
  · exact h3

/-- Normalized channels of a valid color lie in [0,1]. -/
theorem normalized_ch_mem (c : Rgb) (h : c.valid) (k : Channel) :
    0 ≤ (colorToNormalized c).ch k ∧ (colorToNormalized c).ch k ≤ 1 := by
  rw [colorToNormalized_ch]
  constructor
  · positivity
  · rw [div_le_one (by norm_num)]
    exact_mod_cast valid_ch c h k

/-- Each per-channel free alpha is bounded by the overall free alpha. -/
theorem freeAlphaChan_le_freeAlpha (cn gn : NRgb) (k : Channel) :
    freeAlphaChan (cn.ch k) (gn.ch k) ≤ freeAlpha cn gn := by
  cases k
  · exact le_max_left _ _
  · exact le_trans (le_max_left _ _) (le_max_right _ _)
  · exact le_trans (le_max_right _ _) (le_max_right _ _)

/-- The overall free alpha is at most one on valid colors. -/
theorem freeAlpha_le_one (c g : Rgb) (hc : c.valid) (hg : g.valid) :
    freeAlpha (colorToNormalized c) (colorToNormalized g) ≤ 1 := by
  unfold freeAlpha
  have h := fun k => freeAlphaChan_le_one ((colorToNormalized c).ch k)
    ((colorToNormalized g).ch k) (normalized_ch_mem c hc k).1 (normalized_ch_mem c hc k).2
    (normalized_ch_mem g hg k).1 (normalized_ch_mem g hg k).2
  exact max_le (h Channel.r) (max_le (h Channel.g) (h Channel.b))

/-- The overall free alpha is positive on distinct valid colors. -/
theorem freeAlpha_pos (c g : Rgb) (hc : c.valid) (hg : g.valid) (hne : c ≠ g) :
    0 < freeAlpha (colorToNormalized c) (colorToNormalized g) := by
  have hchan : ∃ k : Channel, c.ch k ≠ g.ch k := by
    by_contra hall
    push_neg at hall
    apply hne
    cases c with
    | mk cr cg cb =>
      cases g with
      | mk gr gg gb =>
        have e1 := hall Channel.r
        have e2 := hall Channel.g
        have e3 := hall Channel.b
        simp only [Rgb.ch] at e1 e2 e3
        rw [e1, e2, e3]
  obtain ⟨k, hk⟩ := hchan
  have hnq : (colorToNormalized c).ch k ≠ (colorToNormalized g).ch k := by
    rw [colorToNormalized_ch, colorToNormalized_ch]
    intro he
    apply hk
    have : (c.ch k : Rat) = (g.ch k : Rat) := by
      field_simp at he
      exact_mod_cast he
    exact_mod_cast this
  have hpos := freeAlphaChan_pos ((colorToNormalized c).ch k) ((colorToNormalized g).ch k)
    (normalized_ch_mem c hc k).1 (normalized_ch_mem c hc k).2
    (normalized_ch_mem g hg k).1 (normalized_ch_mem g hg k).2 hnq
  exact lt_of_lt_of_le hpos (freeAlphaChan_le_freeAlpha _ _ k)

/-- Channel form of the composite of a free-solved pixel over the
background. -/
theorem composite_processPixelFree_ch (g c : Rgb) (hne : ¬ c = g) (k : Channel) :
    (compositeOverBackground (processPixelFree g c) g).ch k =
      roundClamp
        ((roundClamp (freeAlpha (colorToNormalized c) (colorToNormalized g) * 255) : Rat) / 255 *
          (roundClamp ((freeE (colorToNormalized c) (colorToNormalized g)
            (freeAlpha (colorToNormalized c) (colorToNormalized g))).ch k * 255) : Rat) +
        (1 - (roundClamp (freeAlpha (colorToNormalized c) (colorToNormalized g) * 255) : Rat) / 255) *
          (g.ch k : Rat)) := by
  rw [processPixelFree, if_neg hne]
  cases k <;> rfl

/-- The free channel of `E` written with the per-channel formula. -/
theorem freeE_ch (cn gn : NRgb) (alpha : Rat) (k : Channel) :
    (freeE cn gn alpha).ch k = gn.ch k + (cn.ch k - gn.ch k) / alpha := by
  cases k <;> rfl

/-- Per-pixel perfect reconstruction of the zero-basis driver: compositing
the emitted pixel over the background recovers the input channel within one
unit. -/
theorem processPixelFree_recon (g c : Rgb) (hg : g.valid) (hc : c.valid) (k : Channel) :
    |((compositeOverBackground (processPixelFree g c) g).ch k : Int) - (c.ch k : Int)| ≤ 1 := by
  by_cases hcg : c = g
  · rw [processPixelFree, if_pos hcg]
    have hch : (compositeOverBackground ⟨0, 0, 0, 0⟩ g).ch k = roundClamp (g.ch k : Rat) := by
      cases k <;> simp [compositeOverBackground, Rgb.ch] <;> norm_num
    rw [hch, roundClamp_natCast _ (valid_ch g hg k), hcg]
    simp
  · rw [composite_processPixelFree_ch g c hcg k]
    set cn := colorToNormalized c
    set gn := colorToNormalized g
    set alpha := freeAlpha cn gn with halphadef
    have hcm := fun j => normalized_ch_mem c hc j
    have hgm := fun j => normalized_ch_mem g hg j
    have ha0 : 0 < alpha := freeAlpha_pos c g hc hg hcg
    have ha1 : alpha ≤ 1 := freeAlpha_le_one c g hc hg
    have hEmem := freeE_chan_mem (cn.ch k) (gn.ch k) alpha
      (hcm k).1 (hcm k).2 (hgm k).1 (hgm k).2 ha0 (freeAlphaChan_le_freeAlpha cn gn k)
    rw [freeE_ch]
    apply freeChannel_bound (c.ch k) (g.ch k) alpha (gn.ch k + (cn.ch k - gn.ch k) / alpha)
      (valid_ch c hc k) (valid_ch g hg k) ha0 ha1 hEmem.1 hEmem.2
    have hcch : cn.ch k = (c.ch k : Rat) / 255 := colorToNormalized_ch c k
    have hgch : gn.ch k = (g.ch k : Rat) / 255 := colorToNormalized_ch g k
    rw [hcch, hgch]
    have hane : alpha ≠ 0 := ne_of_gt ha0
    field_simp
    ring

/-- C4: in non-strict mode with no basis, compositing each output pixel
over the background reproduces the corresponding input pixel within one
unit per channel. -/
theorem claim_C4 (g : Rgb) (img : Image) (hg : g.valid)
    (hpx : ∀ p ∈ img.pixels, p.valid) (i : Nat) (hi : i < img.pixels.length) (k : Channel) :
    |((compositeOverBackground ((processImageFree g img).getD i ⟨0, 0, 0, 0⟩) g).ch k : Int) -
      ((img.pixels.getD i ⟨0, 0, 0⟩).ch k : Int)| ≤ 1 := by
  have hmem : img.pixels.getD i ⟨0, 0, 0⟩ ∈ img.pixels := by
    rw [List.getD_eq_getElem?_getD, List.getElem?_eq_getElem hi]
    exact List.getElem_mem _
  have hmap : (processImageFree g img).getD i ⟨0, 0, 0, 0⟩ =
      processPixelFree g (img.pixels.getD i ⟨0, 0, 0⟩) := by
    unfold processImageFree
    rw [List.getD_eq_getElem?_getD, List.getD_eq_getElem?_getD, List.getElem?_map,
      List.getElem?_eq_getElem hi]
    rfl
  rw [hmap]
  exact processPixelFree_recon g _ hg (hpx _ hmem) k

/-- Witness for C4 on a 1-by-2 image over a white background. -/
theorem claim_C4_witness :
    |((compositeOverBackground
        ((processImageFree ⟨255, 255, 255⟩
          ⟨1, 2, [⟨255, 255, 255⟩, ⟨128, 64, 0⟩]⟩).getD 1 ⟨0, 0, 0, 0⟩)
        ⟨255, 255, 255⟩).ch Channel.r : Int) -
      (((⟨1, 2, [⟨255, 255, 255⟩, ⟨128, 64, 0⟩]⟩ : Image).pixels.getD 1 ⟨0, 0, 0⟩).ch
        Channel.r : Int)| ≤ 1 :=
  claim_C4 ⟨255, 255, 255⟩ ⟨1, 2, [⟨255, 255, 255⟩, ⟨128, 64, 0⟩]⟩ (by decide)
    (by decide) 1 (by decide) Channel.r

/-- Witness for C5 on a uniform 2-by-2 image. -/
theorem claim_C5_witness :
    ∃ pre suf,
      borderPixels ⟨2, 2, [⟨7, 7, 7⟩, ⟨7, 7, 7⟩, ⟨7, 7, 7⟩, ⟨7, 7, 7⟩]⟩ =
        pre ++ (⟨7, 7, 7⟩ : Rgb) :: suf ∧
      (∀ d ∈ borderPixels ⟨2, 2, [⟨7, 7, 7⟩, ⟨7, 7, 7⟩, ⟨7, 7, 7⟩, ⟨7, 7, 7⟩]⟩,
        (borderPixels ⟨2, 2, [⟨7, 7, 7⟩, ⟨7, 7, 7⟩, ⟨7, 7, 7⟩, ⟨7, 7, 7⟩]⟩).count d ≤
          (borderPixels ⟨2, 2, [⟨7, 7, 7⟩, ⟨7, 7, 7⟩, ⟨7, 7, 7⟩, ⟨7, 7, 7⟩]⟩).count ⟨7, 7, 7⟩) ∧
      (∀ d ∈ pre,
        (borderPixels ⟨2, 2, [⟨7, 7, 7⟩, ⟨7, 7, 7⟩, ⟨7, 7, 7⟩, ⟨7, 7, 7⟩]⟩).count d <
          (borderPixels ⟨2, 2, [⟨7, 7, 7⟩, ⟨7, 7, 7⟩, ⟨7, 7, 7⟩, ⟨7, 7, 7⟩]⟩).count ⟨7, 7, 7⟩) :=
  (claim_C5 ⟨2, 2, [⟨7, 7, 7⟩, ⟨7, 7, 7⟩, ⟨7, 7, 7⟩, ⟨7, 7, 7⟩]⟩).2 ⟨7, 7, 7⟩ (by rfl)

/-- Reassembling consecutive slabs that cover the buffer restores it. -/
theorem flatten_splitSlabs {α : Type} (sizes : List Nat) (l : List α)
    (h : sizes.sum = l.length) : (splitSlabs sizes l).flatten = l := by
  induction sizes generalizing l with
  | nil =>
    have hl : l = [] := by
      apply List.eq_nil_of_length_eq_zero
      simp at h
      omega
    rw [hl]
    rfl
  | cons n ns ih =>
    simp only [splitSlabs, List.flatten_cons]
    rw [ih (l.drop n) (by rw [List.length_drop]; simp only [List.sum_cons] at h; omega)]
    exact List.take_append_drop n l

/-- The slab-parallel driver computes exactly the sequential map for every
per-pixel kernel and every slab partition covering the buffer. -/
theorem processWithSlabbed_eq (f : Rgb → Rgba) (pixels : List Rgb) (sizes : List Nat)
    (h : sizes.sum = pixels.length) :
    processWithSlabbed f pixels sizes = pixels.map f := by
  unfold processWithSlabbed
  rw [← List.map_flatten, flatten_splitSlabs sizes pixels h]

/-- C8: processing is deterministic. Per the spec the only parallel stage
is the per-pixel driver over row slabs; background detection, foreground
deduction (whose PRNG seed the spec fixes precisely so that it is a
function of the image), the trim pass and PNG encoding run once,
sequentially, so they enter as functions applied identically on both
sides. For every Options-derived per-pixel kernel (strict or non-strict,
declared or deduced basis - all pure pixel functions per the spec), every
deduction and encoding function, with or without trim, any two slab
partitions of the buffer - hence any two worker counts, and in particular
two runs with the same partition - produce identical final bytes; the
embedded zero-basis kernel is the concrete driver instance. -/
theorem claim_C8 :
    (∀ (deduce : Image → List Rgb) (mkKernel : List Rgb → Rgb → Rgba)
      (encode : Nat × Nat × List Rgba → List Nat) (doTrim : Bool)
      (img : Image) (sizes1 sizes2 : List Nat),
      sizes1.sum = img.pixels.length → sizes2.sum = img.pixels.length →
      encode (applyTrim doTrim img.width img.height
        (processWithSlabbed (mkKernel (deduce img)) img.pixels sizes1)) =
      encode (applyTrim doTrim img.width img.height
        (processWithSlabbed (mkKernel (deduce img)) img.pixels sizes2))) ∧
    (∀ (g : Rgb) (img : Image) (sizes : List Nat), sizes.sum = img.pixels.length →
      processImageFreeSlabbed g img sizes = processImageFree g img) := by
  constructor
  · intro deduce mkKernel encode doTrim img sizes1 sizes2 h1 h2
    rw [processWithSlabbed_eq _ _ _ h1, processWithSlabbed_eq _ _ _ h2]
  · intro g img sizes h
    unfold processImageFreeSlabbed processImageFree
    have hgen := processWithSlabbed_eq (processPixelFree g) img.pixels sizes h
    unfold processWithSlabbed at hgen
    exact hgen

/-- Witness for C8: a three-pixel buffer split as 1+2 versus 3, through
deduction, a kernel built from the deduced basis, trim and a concrete
encoder; plus the zero-basis driver instance. -/
theorem claim_C8_witness :
    ((fun t : Nat × Nat × List Rgba => t.2.2.map (fun p => p.a))
      (applyTrim true 3 1
        (processWithSlabbed
          ((fun basis => processPixelFree (basis.getD 0 ⟨255, 255, 255⟩))
            ((fun _ : Image => [(⟨255, 255, 255⟩ : Rgb)]) ⟨3, 1, [⟨255, 255, 255⟩, ⟨0, 0, 0⟩, ⟨10, 20, 30⟩]⟩))
          [⟨255, 255, 255⟩, ⟨0, 0, 0⟩, ⟨10, 20, 30⟩] [1, 2]))) =
    ((fun t : Nat × Nat × List Rgba => t.2.2.map (fun p => p.a))
      (applyTrim true 3 1
        (processWithSlabbed
          ((fun basis => processPixelFree (basis.getD 0 ⟨255, 255, 255⟩))
            ((fun _ : Image => [(⟨255, 255, 255⟩ : Rgb)]) ⟨3, 1, [⟨255, 255, 255⟩, ⟨0, 0, 0⟩, ⟨10, 20, 30⟩]⟩))
          [⟨255, 255, 255⟩, ⟨0, 0, 0⟩, ⟨10, 20, 30⟩] [3]))) ∧
    processImageFreeSlabbed ⟨255, 255, 255⟩
        ⟨3, 1, [⟨255, 255, 255⟩, ⟨0, 0, 0⟩, ⟨10, 20, 30⟩]⟩ [1, 2] =
      processImageFree ⟨255, 255, 255⟩ ⟨3, 1, [⟨255, 255, 255⟩, ⟨0, 0, 0⟩, ⟨10, 20, 30⟩]⟩ :=
  ⟨claim_C8.1 (fun _ => [⟨255, 255, 255⟩])
      (fun basis => processPixelFree (basis.getD 0 ⟨255, 255, 255⟩))
      (fun t => t.2.2.map (fun p => p.a)) true
      ⟨3, 1, [⟨255, 255, 255⟩, ⟨0, 0, 0⟩, ⟨10, 20, 30⟩]⟩ [1, 2] [3] (by rfl) (by rfl),
    claim_C8.2 ⟨255, 255, 255⟩ ⟨3, 1, [⟨255, 255, 255⟩, ⟨0, 0, 0⟩, ⟨10, 20, 30⟩]⟩ [1, 2] (by rfl)⟩

/-- The three observable failure/success shapes of a CLI outcome imply the
exit-code and stderr discipline. -/
theorem cliOutcomeShape (o : CliOutcome)
    (h : (o.uncaughtError = none ∧ o.exitCode = 0 ∧ o.stderrLines = []) ∨
      (o.uncaughtError = none ∧ o.exitCode = 1 ∧ ∃ m, o.stderrLines = ["Error: " ++ m]) ∨
      ((∃ e, o.uncaughtError = some e) ∧ o.exitCode = 1 ∧ o.stderrLines = [])) :
    (o.exitCode = 0 ∨ o.exitCode = 1) ∧
    (o.exitCode = 0 → o.uncaughtError = none ∧ o.stderrLines = []) ∧
    (o.exitCode = 1 → o.uncaughtError = none → ∃ m, o.stderrLines = ["Error: " ++ m]) ∧
    (∀ e, o.uncaughtError = some e → o.exitCode = 1 ∧ o.stderrLines = []) := by
  rcases h with ⟨hu, he, hs⟩ | ⟨hu, he, hs⟩ | ⟨⟨e0, hu⟩, he, hs⟩
  · refine ⟨Or.inl he, fun _ => ⟨hu, hs⟩, fun h1 => ?_, fun e hse => ?_⟩
    · rw [he] at h1
      cases h1
    · rw [hu] at hse
      cases hse
  · refine ⟨Or.inr he, fun h0 => ?_, fun _ _ => hs, fun e hse => ?_⟩
    · rw [he] at h0
      cases h0
    · rw [hu] at hse
      cases hse
  · refine ⟨Or.inr he, fun h0 => ?_, fun _ hn => ?_, fun e hse => ⟨he, hs⟩⟩
    · rw [he] at h0
      cases h0
    · rw [hu] at hn
      cases hn

/-- C2 (amended): the CLI exits 0 on success and 1 on every failure, and
every failure that stays inside the action's own error handling prints a
single stderr line beginning `Error: `; but an error thrown by
`detectBackgroundColor` (under `--detect`, or while logging an
auto-detected background) escapes the try/catch as an uncaught exception:
the process still terminates with code 1, yet prints no `Error: ` line. -/
theorem claim_C2 (env : CliEnv) (input : String) (output : Option String)
    (opts : CliOptions) (hfind : ∃ n, env.existsFile (outputCandidate input n) = false) :
    ((cliAction env input output opts hfind).exitCode = 0 ∨
      (cliAction env input output opts hfind).exitCode = 1) ∧
    ((cliAction env input output opts hfind).exitCode = 0 →
      (cliAction env input output opts hfind).uncaughtError = none ∧
      (cliAction env input output opts hfind).stderrLines = []) ∧
    ((cliAction env input output opts hfind).exitCode = 1 →
      (cliAction env input output opts hfind).uncaughtError = none →
      ∃ m, (cliAction env input output opts hfind).stderrLines = ["Error: " ++ m]) ∧
    (∀ e, (cliAction env input output opts hfind).uncaughtError = some e →
      (cliAction env input output opts hfind).exitCode = 1 ∧
      (cliAction env input output opts hfind).stderrLines = []) := by
  apply cliOutcomeShape
  by_cases h1 : env.existsFile input = false
  · unfold cliAction
    rw [if_pos h1]
    refine Or.inr (Or.inl ⟨rfl, rfl, "Input file not found: " ++ input, ?_⟩)
    rw [show ("Error: Input file not found: " : String) =
      "Error: " ++ "Input file not found: " from rfl, String.append_assoc]
  · unfold cliAction
    rw [if_neg h1]
    by_cases h2 : opts.detect = true
    · rw [if_pos h2]
      cases hd : env.detectResult with
      | error e => exact Or.inr (Or.inr ⟨⟨e, rfl⟩, rfl, rfl⟩)
      | ok c => exact Or.inl ⟨rfl, rfl, rfl⟩
    · rw [if_neg h2]
      cases hb : opts.bg with
      | some bgStr =>
        unfold cliProcess
        cases hp : env.processResult with
        | ok bytes => exact Or.inl ⟨rfl, rfl, rfl⟩
        | error e => exact Or.inr (Or.inl ⟨rfl, rfl, e, rfl⟩)
      | none =>
        cases hd : env.detectResult with
        | error e => exact Or.inr (Or.inr ⟨⟨e, rfl⟩, rfl, rfl⟩)
        | ok c =>
          unfold cliProcess
          cases hp : env.processResult with
          | ok bytes => exact Or.inl ⟨rfl, rfl, rfl⟩
          | error e => exact Or.inr (Or.inl ⟨rfl, rfl, e, rfl⟩)

/-- Counterexample to C2 as stated: with `--detect` on a readable file
whose decoding fails, the thrown error escapes the try/catch; the process
fails (Node exits 1 for the uncaught exception) but no stderr line
beginning `Error: ` is printed. -/
theorem claim_C2_counterexample :
    (cliAction
      { existsFile := fun s => s == "in.png"
        detectResult := Except.error "Failed to decode image"
        processResult := Except.ok [] }
      ("in.png") none
      { bg := none, fg := none, strict := false, threshold := none, trim := false,
        detect := true }
      ⟨0, rfl⟩).exitCode = 1 ∧
    (cliAction
      { existsFile := fun s => s == "in.png"
        detectResult := Except.error "Failed to decode image"
        processResult := Except.ok [] }
      ("in.png") none
      { bg := none, fg := none, strict := false, threshold := none, trim := false,
        detect := true }
      ⟨0, rfl⟩).uncaughtError = some "Failed to decode image" ∧
    ¬ ∃ m, (cliAction
      { existsFile := fun s => s == "in.png"
        detectResult := Except.error "Failed to decode image"
        processResult := Except.ok [] }
      ("in.png") none
      { bg := none, fg := none, strict := false, threshold := none, trim := false,
        detect := true }
      ⟨0, rfl⟩).stderrLines = ["Error: " ++ m] := by
  refine ⟨rfl, rfl, ?_⟩
  intro ⟨m, hm⟩
  have : (cliAction
      { existsFile := fun s => s == "in.png"
        detectResult := Except.error "Failed to decode image"
        processResult := Except.ok [] }
      ("in.png") none
      { bg := none, fg := none, strict := false, threshold := none, trim := false,
        detect := true }
      ⟨0, rfl⟩).stderrLines = [] := rfl
  rw [this] at hm
  cases hm

/-- Witness for the amended C2 on a successful explicit-background run. -/
theorem claim_C2_witness :
    (cliAction
      { existsFile := fun s => s == "in.png"
        detectResult := Except.ok ⟨0, 0, 0⟩
        processResult := Except.ok [] }
      ("in.png") (some "out.png")
      { bg := some "#ffffff", fg := none, strict := false, threshold := none, trim := false,
        detect := false }
      ⟨0, rfl⟩).exitCode = 0 ∨
    (cliAction
      { existsFile := fun s => s == "in.png"
        detectResult := Except.ok ⟨0, 0, 0⟩
        processResult := Except.ok [] }
      ("in.png") (some "out.png")
      { bg := some "#ffffff", fg := none, strict := false, threshold := none, trim := false,
        detect := false }
      ⟨0, rfl⟩).exitCode = 1 :=
  (claim_C2
    { existsFile := fun s => s == "in.png"
      detectResult := Except.ok ⟨0, 0, 0⟩
      processResult := Except.ok [] }
    ("in.png") (some "out.png")
    { bg := some "#ffffff", fg := none, strict := false, threshold := none, trim := false,
      detect := false }
    ⟨0, rfl⟩).1

/-- C10: under `--detect` with an existing input, the action writes no
file, never invokes `processImageSync`, and never computes an output path;
when detection succeeds it prints the detected color and exits 0. -/
theorem claim_C10 (env : CliEnv) (input : String) (output : Option String)
    (opts : CliOptions) (hfind : ∃ n, env.existsFile (outputCandidate input n) = false)
    (hdet : opts.detect = true) (hexists : env.existsFile input = true) :
    (cliAction env input output opts hfind).writtenFiles = [] ∧
    (cliAction env input output opts hfind).processInvoked = false ∧
    (cliAction env input output opts hfind).outputPathComputed = false ∧
    (∀ c, env.detectResult = Except.ok c →
      (cliAction env input output opts hfind).stdoutLines =
        ["Detected background color: " ++ rgbHexString c ++ " (rgb(" ++
          Nat.repr c.r ++ ", " ++ Nat.repr c.g ++ ", " ++ Nat.repr c.b ++ "))"] ∧
      (cliAction env input output opts hfind).exitCode = 0) := by
  unfold cliAction
  rw [if_neg (by rw [hexists]; simp), if_pos hdet]
  cases hd : env.detectResult with
  | error e =>
    refine ⟨rfl, rfl, rfl, fun c hc => ?_⟩
    cases hc
  | ok c =>
    refine ⟨rfl, rfl, rfl, fun c2 hc2 => ?_⟩
    cases hc2
    exact ⟨rfl, rfl⟩

/-- Witness for C10 on a successful detection of pure red. -/
theorem claim_C10_witness :
    (cliAction (CliEnv.mk (fun s => s == "in.png") (Except.ok ⟨255, 0, 0⟩) (Except.ok []))
      ("in.png") (some "out.png")
      (CliOptions.mk none none false none false true) ⟨0, rfl⟩).writtenFiles = [] ∧
    (cliAction (CliEnv.mk (fun s => s == "in.png") (Except.ok ⟨255, 0, 0⟩) (Except.ok []))
      ("in.png") (some "out.png")
      (CliOptions.mk none none false none false true) ⟨0, rfl⟩).processInvoked = false ∧
    (cliAction (CliEnv.mk (fun s => s == "in.png") (Except.ok ⟨255, 0, 0⟩) (Except.ok []))
      ("in.png") (some "out.png")
      (CliOptions.mk none none false none false true) ⟨0, rfl⟩).outputPathComputed = false ∧
    (∀ c, (CliEnv.mk (fun s => s == "in.png") (Except.ok ⟨255, 0, 0⟩)
        (Except.ok [])).detectResult = Except.ok c →
      (cliAction (CliEnv.mk (fun s => s == "in.png") (Except.ok ⟨255, 0, 0⟩) (Except.ok []))
        ("in.png") (some "out.png")
        (CliOptions.mk none none false none false true) ⟨0, rfl⟩).stdoutLines =
        ["Detected background color: " ++ rgbHexString c ++ " (rgb(" ++
          Nat.repr c.r ++ ", " ++ Nat.repr c.g ++ ", " ++ Nat.repr c.b ++ "))"] ∧
      (cliAction (CliEnv.mk (fun s => s == "in.png") (Except.ok ⟨255, 0, 0⟩) (Except.ok []))
        ("in.png") (some "out.png")
        (CliOptions.mk none none false none false true) ⟨0, rfl⟩).exitCode = 0) :=
  claim_C10 (CliEnv.mk (fun s => s == "in.png") (Except.ok ⟨255, 0, 0⟩) (Except.ok []))
    ("in.png") (some "out.png")
    (CliOptions.mk none none false none false true) ⟨0, rfl⟩ rfl rfl
